import Mathlib

/-!
Verification of `styles_extraction/extract_pose.py` (dust3r pose-extraction
pipeline): shallow embedding of the image-discovery step, the pose-table
export, the reciprocal-nearest-neighbor matcher, the match sampler and the
visualization padding/concatenation, together with proofs of the spec's
claims about them.
-/

/-- Round half to even of the rational `p / q` (with `q > 0`), the rounding
used by `np.round`.  `Int.fdiv`/`Int.fmod` give the floor quotient and the
nonnegative remainder. -/
def rhe (p q : ℤ) : ℤ :=
  if 2 * Int.fmod p q < q then Int.fdiv p q
  else if q < 2 * Int.fmod p q then Int.fdiv p q + 1
  else if Even (Int.fdiv p q) then Int.fdiv p q else Int.fdiv p q + 1

/-- Embedding of `np.round(np.linspace(0, count - 1, k)).astype(int)` from
`extract_pose.py` (the match sampler, with `count = num_matches` and
`k = n_viz`): `np.linspace(0, count-1, k)` is `i * (count-1) / (k-1)` for
`i = 0, …, k-1` when `k ≥ 2`, `[0]` when `k = 1` and `[]` when `k = 0`;
`np.round` rounds half to even, and `astype(int)` is the identity on the
already-integral rounded values. -/
def match_idx_to_viz (count k : ℕ) : List ℤ :=
  if k = 0 then []
  else if k = 1 then [0]
  else (List.range k).map (fun i : ℕ => rhe ((i : ℤ) * ((count : ℤ) - 1)) ((k : ℤ) - 1))

/-- Validity of an integer index into a numpy array of length `n`:
negative indices from `-n` up wrap around, anything else is an
`IndexError`. -/
def numpyIndexOk (n : ℕ) (i : ℤ) : Prop :=
  -(n : ℤ) ≤ i ∧ i < (n : ℤ)

/-- A 3D point.  The matcher's inputs are the confidence-filtered 3D point
sets; coordinates are modelled as integers so that distance comparison is
exact. -/
abbrev Point : Type := ℤ × ℤ × ℤ

/-- Squared Euclidean distance in 3D; comparing squared distances orders
pairs exactly as Euclidean distance does. -/
def dist2 (p q : Point) : ℤ :=
  (p.1 - q.1) ^ 2 + (p.2.1 - q.2.1) ^ 2 + (p.2.2 - q.2.2) ^ 2

/-- Index of the first minimum of a list of (squared) distances; the
lowest-index-wins tie rule. -/
def argminIdx : List ℤ → ℕ
  | [] => 0
  | x :: xs => if x ≤ xs.getD (argminIdx xs) x then 0 else argminIdx xs + 1

/-- Modelled from the spec: the nearest-neighbor mapping of §4.1
(`find_reciprocal_matches` lives in `dust3r.utils.geometry`, outside this
repository's sources).  For a point `p`, the index of its nearest point in
`B` by Euclidean distance, ties resolved lowest-index-first; `none` iff `B`
is empty. -/
def nnIdx (p : Point) (B : List Point) : Option ℕ :=
  if B.isEmpty then none else some (argminIdx (B.map (dist2 p)))

/-- Modelled from the spec: acceptance test for one index `a` of set `A`
(§4.1, step 3).  Let `b` be the nearest neighbor of `A[a]` in `B`; the pair
`(a, b)` is produced iff the nearest neighbor of `B[b]` in `A` is `a`
again. -/
def acceptPair (A B : List Point) (a : ℕ) : Option (ℕ × ℕ) :=
  match A[a]? with
  | none => none
  | some pa =>
    match nnIdx pa B with
    | none => none
    | some b =>
      match B[b]? with
      | none => none
      | some pb =>
        match nnIdx pb A with
        | none => none
        | some a2 => if a2 = a then some (a, b) else none

/-- Modelled from the spec: the reciprocal-nearest-neighbor matcher of §4.1
(`find_reciprocal_matches` is outside this repository's sources).  Pair
`(a, b)` is accepted iff `nnB[a] = b` and `nnA[b] = a`; the result lists
the accepted pairs in the enumeration order of set `A`. -/
def find_reciprocal_matches (A B : List Point) : List (ℕ × ℕ) :=
  (List.range A.length).filterMap (acceptPair A B)

example : find_reciprocal_matches [((0:ℤ),(0:ℤ),(0:ℤ)), (10,10,10)] [((1:ℤ),(0:ℤ),(0:ℤ)), (9,9,9)]
    = [(0, 0), (1, 1)] := by decide
example : find_reciprocal_matches [] [((1:ℤ),(0:ℤ),(0:ℤ))] = [] := by decide
example : find_reciprocal_matches [((1:ℤ),(0:ℤ),(0:ℤ))] [] = [] := by decide
example : find_reciprocal_matches [((0:ℤ),(0:ℤ),(0:ℤ)), (1,0,0)] [((0:ℤ),(0:ℤ),(0:ℤ))] = [(0, 0)] := by decide

example : match_idx_to_viz 10 10 = [0, 1, 2, 3, 4, 5, 6, 7, 8, 9] := by decide
example : match_idx_to_viz 100 10 = [0, 11, 22, 33, 44, 55, 66, 77, 88, 99] := by decide
example : match_idx_to_viz 3 10 = [0, 0, 0, 1, 1, 1, 1, 2, 2, 2] := by decide
example : match_idx_to_viz 0 10 = [0, 0, 0, 0, 0, -1, -1, -1, -1, -1] := by decide

/-! ## Image discovery (`get_image_list`) -/

mutual

/-- A directory: its plain files (by name) and its subdirectories, the
shape `os.walk` traverses.  Names are lists of characters. -/
inductive FTree : Type where
  | node : List (List Char) → FForest → FTree

/-- A list of named subdirectories. -/
inductive FForest : Type where
  | nil : FForest
  | cons : List Char → FTree → FForest → FForest

end

/-- `file.endswith(".png")` from `get_image_list`. -/
def pngName (f : List Char) : Bool :=
  List.isSuffixOf ['.', 'p', 'n', 'g'] f

mutual

/-- Embedding of `get_image_list(path)`: walk the tree rooted at the
directory `t` reached by path `p`, collecting `os.path.join(root, file)`
for every file whose name ends in `".png"`, in `os.walk`'s top-down order. -/
def get_image_list (p : List Char) : FTree → List (List Char)
  | .node files subs =>
      (files.filter pngName).map (fun f => p ++ '/' :: f) ++ imageListOf p subs

/-- The files collected from a list of subdirectories of the directory at
path `p`. -/
def imageListOf (p : List Char) : FForest → List (List Char)
  | .nil => []
  | .cons d t rest => get_image_list (p ++ '/' :: d) t ++ imageListOf p rest

end

mutual

/-- All file entries of the tree at path `p`, as (directory path, file
name) pairs, in walk order. -/
def allEntries (p : List Char) : FTree → List (List Char × List Char)
  | .node files subs => files.map (fun f => (p, f)) ++ allEntriesOf p subs

/-- All file entries contributed by a list of subdirectories. -/
def allEntriesOf (p : List Char) : FForest → List (List Char × List Char)
  | .nil => []
  | .cons d t rest => allEntries (p ++ '/' :: d) t ++ allEntriesOf p rest

end

/-- The discovery step as the orchestrator runs it: the script calls
`get_image_list` and proceeds unconditionally — the code has no failure
path and performs no emptiness check, so discovery always succeeds. -/
def discoverImages (p : List Char) (t : FTree) : Except String (List (List Char)) :=
  Except.ok (get_image_list p t)

/-! ## Pose-table export (`poses_df`) -/

/-- Embedding of the `pd.DataFrame`/`to_csv` export: the `"img"` column is
hardcoded to `[f"img{i}" for i in range(2)]` (two labels), while `focals`
and `poses` have one entry per view.  `pd.DataFrame` of a dict of columns
requires all columns to have equal length, raising `ValueError` otherwise
(modelled as `none`); on success the rows are the columns zipped, one row
per view in index order. -/
def poses_df (focals : List ℚ) (poses : List (List ℚ)) :
    Option (List (String × ℚ × List ℚ)) :=
  let imgCol := (List.range 2).map (fun i => String.append "img" (toString i))
  if imgCol.length = focals.length ∧ focals.length = poses.length then
    some (imgCol.zip (focals.zip poses))
  else none

example : poses_df [7, 8] [[1, 2], [3, 4]]
    = some [("img0", 7, [1, 2]), ("img1", 8, [3, 4])] := by decide
example : poses_df [7, 8, 9] [[1], [2], [3]] = none := by decide

/-! ## Visualization padding and concatenation -/

/-- A pixel: three color channels. -/
abbrev Pix : Type := ℤ × ℤ × ℤ

/-- The zero pixel used by `np.pad(..., "constant", constant_values=0)`. -/
def zeroPix : Pix := (0, 0, 0)

/-- An image as a list of rows of pixels. -/
abbrev Image : Type := List (List Pix)

/-- The width of an image: the length of its first row (numpy's
`shape[1]`, for a nonempty image). -/
def width (img : Image) : ℕ :=
  match img with
  | [] => 0
  | r :: _ => r.length

/-- Embedding of `np.pad(img, ((0, b), (0, 0), (0, 0)), "constant",
constant_values=0)`: append `b` rows of zero pixels of width `w` at the
bottom. -/
def padBottom (img : Image) (b w : ℕ) : Image :=
  img ++ List.replicate b (List.replicate w zeroPix)

/-- Embedding of the visualization-image assembly in `extract_pose.py`:
`img0` is padded at the bottom by `max(H1 - H0, 0)` zero rows, `img1` by
`max(H0 - H1, 0)` (truncated subtraction on ℕ is exactly `max(·, 0)`), and
the results are concatenated along axis 1 (row-wise). -/
def vizConcat (img0 img1 : Image) : Image :=
  let i0 := padBottom img0 (img1.length - img0.length) (width img0)
  let i1 := padBottom img1 (img0.length - img1.length) (width img1)
  List.zipWith (fun r s => r ++ s) i0 i1

/-- An image has height `H` and width `W`: `H` rows, each of length `W`. -/
def wellformed (img : Image) (H W : ℕ) : Prop :=
  img.length = H ∧ ∀ r ∈ img, r.length = W

instance (img : Image) (H W : ℕ) : Decidable (wellformed img H W) := by
  unfold wellformed; infer_instance

instance (n : ℕ) (i : ℤ) : Decidable (numpyIndexOk n i) := by
  unfold numpyIndexOk; infer_instance

/-! ## Lemmas about the sampler's rounding -/

theorem rhe_nonneg {p q : ℤ} (hq : 0 < q) (hp : 0 ≤ p) : 0 ≤ rhe p q := by
  have hd : 0 ≤ p / q := Int.ediv_nonneg hp hq.le
  unfold rhe
  rw [Int.fdiv_eq_ediv _ hq.le]
  split_ifs <;> omega

theorem rhe_le {p q m : ℤ} (hq : 0 < q) (hpm : p ≤ m * q) : rhe p q ≤ m := by
  have hd : p / q ≤ m := by
    have h := Int.ediv_le_ediv hq hpm
    rwa [Int.mul_ediv_cancel _ hq.ne.symm] at h
  have key : q ≤ 2 * (p % q) → p / q + 1 ≤ m := by
    intro hr2
    rcases lt_or_le (p / q) m with h | h
    · omega
    · exfalso
      have hdm : p / q = m := le_antisymm hd h
      have heq := Int.ediv_add_emod p q
      have hcomm : q * m = m * q := mul_comm q m
      rw [hdm] at heq
      omega
  unfold rhe
  rw [Int.fdiv_eq_ediv _ hq.le, Int.fmod_eq_emod _ hq.le]
  split_ifs with h1 h2 h3
  · exact hd
  · exact key (by omega)
  · exact hd
  · exact key (by omega)

theorem rhe_mono {p p' q : ℤ} (hq : 0 < q) (h : p ≤ p') : rhe p q ≤ rhe p' q := by
  have hd : p / q ≤ p' / q := Int.ediv_le_ediv hq h
  unfold rhe
  rw [Int.fdiv_eq_ediv p hq.le, Int.fmod_eq_emod p hq.le,
      Int.fdiv_eq_ediv p' hq.le, Int.fmod_eq_emod p' hq.le]
  rcases lt_or_le (p / q) (p' / q) with hlt | hle
  · have hr1 : 0 ≤ p % q := Int.emod_nonneg p hq.ne.symm
    have hr2 : p % q < q := Int.emod_lt_of_pos p hq
    have hr3 : 0 ≤ p' % q := Int.emod_nonneg p' hq.ne.symm
    have hr4 : p' % q < q := Int.emod_lt_of_pos p' hq
    split_ifs <;> omega
  · have hdd : p / q = p' / q := le_antisymm hd hle
    have heq1 := Int.ediv_add_emod p q
    have heq2 := Int.ediv_add_emod p' q
    have hr : p % q ≤ p' % q := by rw [hdd] at heq1; omega
    rw [hdd]
    split_ifs <;> omega

/-! ## Lemmas about the sampler -/

theorem match_idx_to_viz_length (count k : ℕ) : (match_idx_to_viz count k).length = k := by
  unfold match_idx_to_viz
  split_ifs with h1 h2
  · simp [h1]
  · simp [h2]
  · simp

theorem match_idx_to_viz_bounds {count k : ℕ} (hc : 1 ≤ count) :
    ∀ x ∈ match_idx_to_viz count k, 0 ≤ x ∧ x < (count : ℤ) := by
  intro x hx
  have hc' : (1 : ℤ) ≤ (count : ℤ) := by exact_mod_cast hc
  unfold match_idx_to_viz at hx
  split_ifs at hx with h1 h2
  · simp at hx
  · simp at hx
    subst hx
    omega
  · simp only [List.mem_map, List.mem_range] at hx
    obtain ⟨i, hi, rfl⟩ := hx
    have hq : (0 : ℤ) < (k : ℤ) - 1 := by omega
    constructor
    · exact rhe_nonneg hq (mul_nonneg (by omega) (by omega))
    · have hik : (i : ℤ) ≤ (k : ℤ) - 1 := by omega
      have hmul : (i : ℤ) * ((count : ℤ) - 1) ≤ ((count : ℤ) - 1) * ((k : ℤ) - 1) := by
        calc (i : ℤ) * ((count : ℤ) - 1) ≤ ((k : ℤ) - 1) * ((count : ℤ) - 1) :=
              mul_le_mul_of_nonneg_right hik (by omega)
          _ = ((count : ℤ) - 1) * ((k : ℤ) - 1) := mul_comm _ _
      have := rhe_le hq hmul
      omega

theorem match_idx_to_viz_pairwise {count k : ℕ} (hc : 1 ≤ count) :
    (match_idx_to_viz count k).Pairwise (· ≤ ·) := by
  unfold match_idx_to_viz
  split_ifs with h1 h2
  · simp
  · simp
  · rw [List.pairwise_map]
    refine (List.pairwise_lt_range k).imp ?_
    intro a b hab
    exact rhe_mono (by omega)
      (mul_le_mul_of_nonneg_right (by exact_mod_cast hab.le) (by omega))

/-! ## Lemmas about the matcher -/

theorem argminIdx_lt {l : List ℤ} (h : l ≠ []) : argminIdx l < l.length := by
  induction l with
  | nil => exact absurd rfl h
  | cons x xs ih =>
    simp only [argminIdx]
    split_ifs with hle
    · simp
    · by_cases hxs : xs = []
      · subst hxs
        simp at hle
      · simpa using Nat.succ_lt_succ (ih hxs)

theorem argminIdx_min {l : List ℤ} : ∀ j, j < l.length → l.getD (argminIdx l) 0 ≤ l.getD j 0 := by
  induction l with
  | nil => intro j hj; simp at hj
  | cons x xs ih =>
    intro j hj
    simp only [argminIdx]
    by_cases hxs : xs = []
    · subst hxs
      simp only [List.length_cons, List.length_nil] at hj
      have hj0 : j = 0 := by omega
      subst hj0
      simp
    · have hlt := argminIdx_lt hxs
      have hD : xs.getD (argminIdx xs) x = xs.getD (argminIdx xs) 0 := by
        rw [List.getD_eq_getElem xs x hlt, List.getD_eq_getElem xs 0 hlt]
      split_ifs with hle
      · cases j with
        | zero => simp
        | succ j =>
          simp only [List.getD_cons_zero, List.getD_cons_succ]
          have h2 := ih j (by simpa using Nat.lt_of_succ_lt_succ hj)
          rw [hD] at hle
          omega
      · cases j with
        | zero =>
          simp only [List.getD_cons_zero, List.getD_cons_succ]
          rw [hD] at hle
          omega
        | succ j =>
          simp only [List.getD_cons_succ]
          exact ih j (by simpa using Nat.lt_of_succ_lt_succ hj)

theorem nnIdx_spec {p : Point} {B : List Point} {b : ℕ} (h : nnIdx p B = some b) :
    ∃ pb, B[b]? = some pb ∧ ∀ q ∈ B, dist2 p pb ≤ dist2 p q := by
  unfold nnIdx at h
  split_ifs at h with hB
  have hBne : B ≠ [] := by simpa using hB
  have hb : argminIdx (B.map (dist2 p)) = b := Option.some_inj.mp h
  have hblt : b < B.length := by
    have h1 := argminIdx_lt (l := B.map (dist2 p)) (by simpa using hBne)
    rw [hb] at h1
    simpa using h1
  refine ⟨B.get ⟨b, hblt⟩, ?_, ?_⟩
  · rw [List.getElem?_eq_getElem hblt]
    simp
  · intro q hq
    obtain ⟨j, hjlt, rfl⟩ := List.mem_iff_getElem.mp hq
    have hmin := argminIdx_min (l := B.map (dist2 p)) j (by simpa using hjlt)
    rw [hb] at hmin
    rw [List.getD_eq_getElem _ 0 (by simpa using hblt),
        List.getD_eq_getElem _ 0 (by simpa using hjlt)] at hmin
    simpa using hmin

theorem acceptPair_eq_some {A B : List Point} {a' a b : ℕ}
    (h : acceptPair A B a' = some (a, b)) :
    a' = a ∧ ∃ pa pb, A[a]? = some pa ∧ B[b]? = some pb ∧
      nnIdx pa B = some b ∧ nnIdx pb A = some a := by
  unfold acceptPair at h
  cases hA : A[a']? with
  | none => simp [hA] at h
  | some pa =>
    cases hN : nnIdx pa B with
    | none => simp [hA, hN] at h
    | some b' =>
      cases hB : B[b']? with
      | none => simp [hA, hN, hB] at h
      | some pb =>
        cases hM : nnIdx pb A with
        | none => simp [hA, hN, hB, hM] at h
        | some a2 =>
          simp only [hA, hN, hB, hM] at h
          by_cases ha2 : a2 = a'
          · rw [if_pos ha2] at h
            have hpair : (a', b') = (a, b) := Option.some_inj.mp h
            have ha : a' = a := congrArg Prod.fst hpair
            have hb : b' = b := congrArg Prod.snd hpair
            subst ha
            subst hb
            rw [ha2] at hM
            exact ⟨rfl, pa, pb, hA, hB, hN, hM⟩
          · rw [if_neg ha2] at h
            simp at h

/-- C1: every pair `(a, b)` returned by the correspondence matcher is a
mutual nearest neighbor: the nearest point (by Euclidean distance in 3D) to
`A[a]` among `B` is `B[b]`, and the nearest point to `B[b]` among `A` is
`A[a]`; in particular neither point is strictly farther than any other
candidate on the opposite side. -/
theorem reciprocal_matches_are_mutual_nn {A B : List Point} {a b : ℕ}
    (h : (a, b) ∈ find_reciprocal_matches A B) :
    ∃ pa pb, A[a]? = some pa ∧ B[b]? = some pb ∧
      nnIdx pa B = some b ∧ nnIdx pb A = some a ∧
      (∀ q ∈ B, dist2 pa pb ≤ dist2 pa q) ∧
      (∀ q ∈ A, dist2 pb pa ≤ dist2 pb q) := by
  unfold find_reciprocal_matches at h
  obtain ⟨a', _, hf⟩ := List.mem_filterMap.mp h
  obtain ⟨-, pa, pb, hA, hB, hN, hM⟩ := acceptPair_eq_some hf
  obtain ⟨pb', hpb', hminB⟩ := nnIdx_spec hN
  obtain ⟨pa', hpa', hminA⟩ := nnIdx_spec hM
  have hpb : pb = pb' := by
    rw [hB] at hpb'
    exact Option.some_inj.mp hpb'
  have hpa : pa = pa' := by
    rw [hA] at hpa'
    exact Option.some_inj.mp hpa'
  subst hpb
  subst hpa
  exact ⟨pa, pb, hA, hB, hN, hM, hminB, hminA⟩

/-- Witness for `reciprocal_matches_are_mutual_nn` at the concrete inputs
`A = [(0,0,0)]`, `B = [(0,0,1)]` and the returned pair `(0, 0)`. -/
theorem reciprocal_matches_are_mutual_nn_witness :
    ∃ pa pb, ([((0:ℤ), (0:ℤ), (0:ℤ))])[(0:ℕ)]? = some pa ∧
      ([((0:ℤ), (0:ℤ), (1:ℤ))])[(0:ℕ)]? = some pb ∧
      nnIdx pa [((0:ℤ), (0:ℤ), (1:ℤ))] = some 0 ∧
      nnIdx pb [((0:ℤ), (0:ℤ), (0:ℤ))] = some 0 ∧
      (∀ q ∈ [((0:ℤ), (0:ℤ), (1:ℤ))], dist2 pa pb ≤ dist2 pa q) ∧
      (∀ q ∈ [((0:ℤ), (0:ℤ), (0:ℤ))], dist2 pb pa ≤ dist2 pb q) :=
  reciprocal_matches_are_mutual_nn
    (A := [(0, 0, 0)]) (B := [(0, 0, 1)]) (by decide)

/-- C2 counterexample: with both filtered point sets empty the matcher does
return zero matches, but the pipeline does not proceed safely: the sampler
still emits index `0` (among others), which is out of range for the empty
match arrays (`matches_im0[match_idx_to_viz]` raises `IndexError`). -/
theorem empty_input_faults_at_sampling :
    find_reciprocal_matches [] [] = [] ∧
    (0 : ℤ) ∈ match_idx_to_viz 0 10 ∧ ¬ numpyIndexOk 0 0 :=
  ⟨by decide, by decide, by decide⟩

/-- C2 amended: an empty filtered set on either side yields zero matches
from the matcher (a valid result), but the subsequent visualization
sampling step then indexes the empty match arrays with out-of-range
indices, so the run faults at sampling rather than proceeding. -/
theorem empty_side_yields_no_matches {A B : List Point} (h : A = [] ∨ B = []) :
    find_reciprocal_matches A B = [] ∧
    ∀ i ∈ match_idx_to_viz 0 10, ¬ numpyIndexOk 0 i := by
  constructor
  · rcases h with rfl | rfl
    · rfl
    · unfold find_reciprocal_matches
      refine List.filterMap_eq_nil_iff.mpr ?_
      intro a _
      unfold acceptPair
      cases hA : A[a]? with
      | none => simp [hA]
      | some pa => simp [hA, nnIdx]
  · intro i _ hok
    unfold numpyIndexOk at hok
    omega

/-- Witness for `empty_side_yields_no_matches` with a nonempty `A` and an
empty `B`. -/
theorem empty_side_yields_no_matches_witness :
    find_reciprocal_matches [((1:ℤ), (2:ℤ), (3:ℤ))] [] = [] ∧
    ∀ i ∈ match_idx_to_viz 0 10, ¬ numpyIndexOk 0 i :=
  empty_side_yields_no_matches (Or.inr rfl)

/-- C3 counterexample: for a correspondence set of size 3 and requested
sample size 10 the sampler returns 10 indices, not `min(10, 3) = 3`. -/
theorem sampler_not_min_count :
    (match_idx_to_viz 3 10).length ≠ min 10 3 := by decide

/-- C3 amended: for every correspondence set of size `count` with
`1 ≤ count < k`, the match sampler does not fault and returns exactly `k`
indices into the set (duplicates as forced), every one within
`[0, count−1]`; for `count = 0` the emitted indices are out of range for
the empty match arrays (see the C2 counterexample). -/
theorem sampler_degrades_to_k_indices {count k : ℕ} (hc : 1 ≤ count)
    (hck : count < k) :
    (match_idx_to_viz count k).length = k ∧
    ∀ x ∈ match_idx_to_viz count k, 0 ≤ x ∧ x < (count : ℤ) :=
  ⟨match_idx_to_viz_length count k, match_idx_to_viz_bounds hc⟩

/-- Witness for `sampler_degrades_to_k_indices` at `count = 3`, `k = 10`. -/
theorem sampler_degrades_to_k_indices_witness :
    (match_idx_to_viz 3 10).length = 10 ∧
    ∀ x ∈ match_idx_to_viz 3 10, 0 ≤ x ∧ x < (3 : ℤ) :=
  sampler_degrades_to_k_indices (by decide) (by decide)

/-- C4: the sampler returns `k` indices computed by rounded linear
interpolation across `[0, count−1]`; in particular for `count = 10, k = 10`
the indices are exactly `[0..9]`, and for `count = 100, k = 10` the 10
indices include both `0` and `99`. -/
theorem sampler_evenly_spaced :
    (∀ count k : ℕ, (match_idx_to_viz count k).length = k) ∧
    match_idx_to_viz 10 10 = [0, 1, 2, 3, 4, 5, 6, 7, 8, 9] ∧
    (match_idx_to_viz 100 10).length = 10 ∧
    (0 : ℤ) ∈ match_idx_to_viz 100 10 ∧ (99 : ℤ) ∈ match_idx_to_viz 100 10 :=
  ⟨match_idx_to_viz_length, by decide, by decide, by decide, by decide⟩

/-- C10: for every match count ≥ 1 and sample size k ≥ 2, the sampler's
index sequence is nondecreasing and every index lies within
`[0, count−1]`, so indexing the match arrays with it never goes out of
range. -/
theorem sampler_indices_sorted_in_range {count k : ℕ} (hc : 1 ≤ count)
    (hk : 2 ≤ k) :
    (match_idx_to_viz count k).Pairwise (· ≤ ·) ∧
    ∀ x ∈ match_idx_to_viz count k, 0 ≤ x ∧ x ≤ (count : ℤ) - 1 := by
  refine ⟨match_idx_to_viz_pairwise hc, ?_⟩
  intro x hx
  have h := match_idx_to_viz_bounds hc x hx
  omega

/-- Witness for `sampler_indices_sorted_in_range` at `count = 5`,
`k = 10`. -/
theorem sampler_indices_sorted_in_range_witness :
    (match_idx_to_viz 5 10).Pairwise (· ≤ ·) ∧
    ∀ x ∈ match_idx_to_viz 5 10, 0 ≤ x ∧ x ≤ (5 : ℤ) - 1 :=
  sampler_indices_sorted_in_range (by decide) (by decide)

/-! ## Lemmas about image discovery -/

/-- The contribution of one file entry to the discovery output: the joined
path when the file name ends in `".png"`, nothing otherwise. -/
def pngJoin (df : List Char × List Char) : Option (List Char) :=
  if pngName df.2 then some (df.1 ++ '/' :: df.2) else none

theorem filter_map_png (p : List Char) (files : List (List Char)) :
    (files.filter pngName).map (fun f => p ++ '/' :: f)
      = files.filterMap (fun f => pngJoin (p, f)) := by
  induction files with
  | nil => rfl
  | cons f fs ih =>
    rw [List.filter_cons, List.filterMap_cons]
    by_cases hf : pngName f
    · simp [pngJoin, hf, ih]
    · simp [pngJoin, hf, ih]

mutual

theorem gil_eq (p : List Char) : ∀ t : FTree,
    get_image_list p t = (allEntries p t).filterMap pngJoin
  | .node files subs => by
    rw [get_image_list, allEntries, List.filterMap_append, List.filterMap_map,
        gilf_eq p subs, filter_map_png]
    rfl

theorem gilf_eq (p : List Char) : ∀ fo : FForest,
    imageListOf p fo = (allEntriesOf p fo).filterMap pngJoin
  | .nil => by rw [imageListOf, allEntriesOf]; rfl
  | .cons d t rest => by
    rw [imageListOf, allEntriesOf, List.filterMap_append,
        gil_eq (p ++ '/' :: d) t, gilf_eq p rest]

end

mutual

theorem allEntries_under (p : List Char) : ∀ (t : FTree) (d f : List Char),
    (d, f) ∈ allEntries p t → ∃ r, d = p ++ r
  | .node files subs, d, f => by
    rw [allEntries]
    intro h
    rcases List.mem_append.mp h with h1 | h2
    · obtain ⟨g, hg, hEq⟩ := List.mem_map.mp h1
      have hpd : p = d := congrArg Prod.fst hEq
      exact ⟨[], by simp [← hpd]⟩
    · exact allEntriesOf_under p subs d f h2

theorem allEntriesOf_under (p : List Char) : ∀ (fo : FForest) (d f : List Char),
    (d, f) ∈ allEntriesOf p fo → ∃ r, d = p ++ r
  | .nil, d, f => by
    rw [allEntriesOf]
    intro h
    exact absurd h (List.not_mem_nil _)
  | .cons dn t rest, d, f => by
    rw [allEntriesOf]
    intro h
    rcases List.mem_append.mp h with h1 | h2
    · obtain ⟨r, hr⟩ := allEntries_under (p ++ '/' :: dn) t d f h1
      exact ⟨'/' :: dn ++ r, by rw [hr, List.append_assoc]⟩
    · exact allEntriesOf_under p rest d f h2

end

/-- C8: image discovery walks the directory tree and returns exactly the
joined paths of those file entries whose name ends with `".png"` (so no
matching file is omitted), and every returned path lies under the given
root. -/
theorem get_image_list_exactly_png (p : List Char) (t : FTree) (x : List Char) :
    (x ∈ get_image_list p t ↔
      ∃ d f, (d, f) ∈ allEntries p t ∧ pngName f = true ∧ x = d ++ '/' :: f) ∧
    (x ∈ get_image_list p t → ∃ rest, x = p ++ rest) := by
  constructor
  · rw [gil_eq, List.mem_filterMap]
    constructor
    · rintro ⟨⟨d, f⟩, hmem, hjoin⟩
      unfold pngJoin at hjoin
      by_cases hf : pngName f
      · rw [if_pos hf] at hjoin
        exact ⟨d, f, hmem, hf, (Option.some_inj.mp hjoin).symm⟩
      · rw [if_neg hf] at hjoin
        exact absurd hjoin (by simp)
    · rintro ⟨d, f, hmem, hf, rfl⟩
      exact ⟨(d, f), hmem, by simp [pngJoin, hf]⟩
  · intro hx
    rw [gil_eq, List.mem_filterMap] at hx
    obtain ⟨⟨d, f⟩, hmem, hjoin⟩ := hx
    obtain ⟨r, rfl⟩ := allEntries_under p t d f hmem
    unfold pngJoin at hjoin
    by_cases hf : pngName f
    · rw [if_pos hf] at hjoin
      obtain rfl := Option.some_inj.mp hjoin
      exact ⟨r ++ '/' :: f, List.append_assoc p r ('/' :: f)⟩
    · rw [if_neg hf] at hjoin
      exact absurd hjoin (by simp)

/-- Witness for `get_image_list_exactly_png` at a concrete one-directory
tree holding `a.png`, with root path `r`. -/
theorem get_image_list_exactly_png_witness :
    (['r', '/', 'a', '.', 'p', 'n', 'g'] ∈
        get_image_list ['r'] (FTree.node [['a', '.', 'p', 'n', 'g']] FForest.nil) ↔
      ∃ d f, (d, f) ∈ allEntries ['r'] (FTree.node [['a', '.', 'p', 'n', 'g']] FForest.nil) ∧
        pngName f = true ∧ ['r', '/', 'a', '.', 'p', 'n', 'g'] = d ++ '/' :: f) ∧
    (['r', '/', 'a', '.', 'p', 'n', 'g'] ∈
        get_image_list ['r'] (FTree.node [['a', '.', 'p', 'n', 'g']] FForest.nil) →
      ∃ rest, ['r', '/', 'a', '.', 'p', 'n', 'g'] = ['r'] ++ rest) :=
  get_image_list_exactly_png ['r'] (FTree.node [['a', '.', 'p', 'n', 'g']] FForest.nil)
    ['r', '/', 'a', '.', 'p', 'n', 'g']

/-- C7 counterexample: on a directory tree with no images, discovery
returns the empty list and the pipeline continues (`Except.ok []`); no
error, diagnostic or abort happens at the discovery step. -/
theorem discovery_empty_continues :
    get_image_list ['r'] (FTree.node [] FForest.nil) = [] ∧
    discoverImages ['r'] (FTree.node [] FForest.nil) = Except.ok [] :=
  ⟨rfl, rfl⟩

/-- C7 amended: when image discovery finds no input images the pipeline
does not fail fast; `get_image_list` returns an empty list and the
orchestrator proceeds to image loading with the empty set (any failure
surfaces only later, inside the external loader). -/
theorem discovery_no_images_yields_ok_empty {p : List Char} {t : FTree}
    (h : ∀ e ∈ allEntries p t, pngName e.2 = false) :
    discoverImages p t = Except.ok [] := by
  unfold discoverImages
  rw [gil_eq]
  refine congrArg Except.ok (List.filterMap_eq_nil_iff.mpr ?_)
  intro df hdf
  simp [pngJoin, h df hdf]

/-- Witness for `discovery_no_images_yields_ok_empty` at a tree holding
only `b.jpg`. -/
theorem discovery_no_images_yields_ok_empty_witness :
    discoverImages ['r'] (FTree.node [['b', '.', 'j', 'p', 'g']] FForest.nil) = Except.ok [] :=
  discovery_no_images_yields_ok_empty (by decide)

/-- C5 counterexample: for `N = 3` views the `"img"` column (hardcoded to
two labels) mismatches the three-entry focal and pose columns, so the
`DataFrame` construction raises `ValueError` and no 3-row table is ever
produced. -/
theorem poses_df_three_views_no_table :
    poses_df [7, 8, 9] [[1], [2], [3]] = none := by decide

/-- C5 amended: for `N = 2` views the export produces exactly 2 data rows,
one per view in ascending view-id order, each row carrying that view's
focal and pose values unchanged; for any other number of views the
`DataFrame` construction fails and no table is written (the round-trip
precision of the CSV text itself is outside this model). -/
theorem poses_df_two_views (f0 f1 : ℚ) (p0 p1 : List ℚ) :
    poses_df [f0, f1] [p0, p1] = some [("img0", f0, p0), ("img1", f1, p1)] := rfl

/-- Witness for `poses_df_two_views` at concrete focals and poses. -/
theorem poses_df_two_views_witness :
    poses_df [7, 8] [[1, 2], [3, 4]] = some [("img0", 7, [1, 2]), ("img1", 8, [3, 4])] :=
  poses_df_two_views 7 8 [1, 2] [3, 4]

/-! ## Lemmas about visualization padding -/

theorem width_of_wellformed {img : Image} {H W : ℕ} (h : wellformed img H W)
    (hH : 0 < H) : width img = W := by
  obtain ⟨hlen, hrows⟩ := h
  cases img with
  | nil => simp at hlen; omega
  | cons r rs => exact hrows r (List.mem_cons_self r rs)

theorem padBottom_wellformed {img : Image} {H W : ℕ} (h : wellformed img H W)
    (hH : 0 < H) (b : ℕ) : wellformed (padBottom img b (width img)) (H + b) W := by
  obtain ⟨hlen, hrows⟩ := h
  have hw := width_of_wellformed ⟨hlen, hrows⟩ hH
  constructor
  · simp [padBottom, hlen]
  · intro r hr
    rcases List.mem_append.mp hr with h1 | h2
    · exact hrows r h1
    · rw [List.eq_of_mem_replicate h2, List.length_replicate, hw]

/-- C9: before being handed to the visualization sink the two images are
padded with zero rows at the bottom so that both have height
`max H0 H1` with widths unchanged, and are then concatenated horizontally
into a single image of width `W0 + W1` (and height `max H0 H1`). -/
theorem viz_pad_and_concat {img0 img1 : Image} {H0 W0 H1 W1 : ℕ}
    (h0 : wellformed img0 H0 W0) (h1 : wellformed img1 H1 W1)
    (hH0 : 0 < H0) (hH1 : 0 < H1) :
    wellformed (padBottom img0 (img1.length - img0.length) (width img0))
      (max H0 H1) W0 ∧
    wellformed (padBottom img1 (img0.length - img1.length) (width img1))
      (max H0 H1) W1 ∧
    wellformed (vizConcat img0 img1) (max H0 H1) (W0 + W1) := by
  have hl0 : img0.length = H0 := h0.1
  have hl1 : img1.length = H1 := h1.1
  have hp0 : wellformed (padBottom img0 (img1.length - img0.length) (width img0))
      (max H0 H1) W0 := by
    have := padBottom_wellformed h0 hH0 (img1.length - img0.length)
    have hmax : H0 + (img1.length - img0.length) = max H0 H1 := by omega
    rwa [hmax] at this
  have hp1 : wellformed (padBottom img1 (img0.length - img1.length) (width img1))
      (max H0 H1) W1 := by
    have := padBottom_wellformed h1 hH1 (img0.length - img1.length)
    have hmax : H1 + (img0.length - img1.length) = max H0 H1 := by omega
    rwa [hmax] at this
  refine ⟨hp0, hp1, ?_, ?_⟩
  · unfold vizConcat
    rw [List.length_zipWith, hp0.1, hp1.1]
    omega
  · intro r hr
    unfold vizConcat at hr
    obtain ⟨i, hi, hri⟩ := List.mem_iff_getElem.mp hr
    rw [List.getElem_zipWith] at hri
    rw [← hri, List.length_append]
    rw [List.length_zipWith, hp0.1, hp1.1] at hi
    have hi0 : i < (padBottom img0 (img1.length - img0.length) (width img0)).length := by
      rw [hp0.1]; omega
    have hi1 : i < (padBottom img1 (img0.length - img1.length) (width img1)).length := by
      rw [hp1.1]; omega
    have hw0 := hp0.2 _ (List.getElem_mem hi0)
    have hw1 := hp1.2 _ (List.getElem_mem hi1)
    rw [hw0, hw1]

/-- Witness for `viz_pad_and_concat` at a concrete 1×1 and 2×2 image. -/
theorem viz_pad_and_concat_witness :
    wellformed (padBottom [[zeroPix]]
      (([[zeroPix, zeroPix], [zeroPix, zeroPix]] : Image).length - ([[zeroPix]] : Image).length)
      (width [[zeroPix]])) (max 1 2) 1 ∧
    wellformed (padBottom [[zeroPix, zeroPix], [zeroPix, zeroPix]]
      (([[zeroPix]] : Image).length - ([[zeroPix, zeroPix], [zeroPix, zeroPix]] : Image).length)
      (width [[zeroPix, zeroPix], [zeroPix, zeroPix]])) (max 1 2) 2 ∧
    wellformed (vizConcat [[zeroPix]] [[zeroPix, zeroPix], [zeroPix, zeroPix]]) (max 1 2) (1 + 2) :=
  viz_pad_and_concat (by decide) (by decide) (by decide) (by decide)
